import Mathlib

/-!
Verification of the strategy-simulation engine in `src/simulate_strategies.py`.

The embedding models:
  * calendar dates (`pd.Timestamp` at day granularity) as `Date`, ordered
    chronologically (lexicographically by year, month, day);
  * prices and money (Python floats) as exact rationals `ℚ`;
  * price rows (the `Date` / `adj_close` columns of the price DataFrame) as
    `PricePoint`, a series being a `List PricePoint` in row order;
  * Python exceptions that the source can actually raise as `PyError`,
    with fallible functions returning `Except PyError _`.
-/

/-- Calendar date at day granularity (models a normalized `pd.Timestamp`). -/
structure Date where
  year : Nat
  month : Nat
  day : Nat
deriving DecidableEq

/-- Chronological key of a date: lexicographic (year, month, day). -/
def Date.key (d : Date) : Lex (Nat × Lex (Nat × Nat)) := toLex (d.year, toLex (d.month, d.day))

theorem Date.key_injective : Function.Injective Date.key := by
  intro a b h
  have h1 := toLex.injective h
  have h2 : a.year = b.year := congrArg Prod.fst h1
  have h3 := toLex.injective (congrArg Prod.snd h1)
  have h4 : a.month = b.month := congrArg Prod.fst h3
  have h5 : a.day = b.day := congrArg Prod.snd h3
  cases a; cases b; simp_all

/-- Dates compare chronologically, i.e. lexicographically on (year, month, day),
exactly as `pd.Timestamp` comparisons do. -/
instance : LinearOrder Date := LinearOrder.lift' Date.key Date.key_injective

/-- A (year, month) pair ordered lexicographically: the groupby key of
`prices.groupby(["year", "month"])`. -/
def YM := Lex (Nat × Nat)

instance : LinearOrder YM := inferInstanceAs (LinearOrder (Lex (Nat × Nat)))
instance : DecidableEq YM := inferInstanceAs (DecidableEq (Lex (Nat × Nat)))

/-- The (year, month) pair of a date, as produced by `Date.dt.year` / `Date.dt.month`. -/
def Date.ym (d : Date) : YM := toLex (d.year, d.month)

/-- One row of the price DataFrame: the `Date` column and the `adj_close`
column (`[Adj Close]` from the `prices` table). -/
structure PricePoint where
  date : Date
  adj_close : ℚ
deriving DecidableEq

/-- Initial lump-sum capital (module constant `INITIAL_CAPITAL = 10000.0`). -/
def INITIAL_CAPITAL : ℚ := 10000

/-- Monthly DCA contribution (module constant `MONTHLY_CONTRIBUTION = 300.0`). -/
def MONTHLY_CONTRIBUTION : ℚ := 300

/-- Target investment day of month (module constant `INVESTMENT_DAY = 5`). -/
def INVESTMENT_DAY : Nat := 5

/-- One output row of a simulation: the columns
`["Date", "ticker", "strategy", "units", "invested_amount", "portfolio_value"]`
selected into `StrategyResult.df_equity`. -/
structure EquityRecord where
  date : Date
  ticker : String
  strategy : String
  units : ℚ
  invested_amount : ℚ
  portfolio_value : ℚ
deriving DecidableEq

/-- The `StrategyResult` dataclass. -/
structure StrategyResult where
  df_equity : List EquityRecord
  name : String
  ticker : String
deriving DecidableEq

/-- Python exceptions the source code can actually raise on the modelled paths:
`keyError i` models the `KeyError` of `df.loc[i, ...]` on a frame without row
label `i`; `valueError` models the `ValueError` of `pd.concat` applied to an
empty list of frames.  The source defines no error classes of its own. -/
inductive PyError where
  | keyError (index : Nat)
  | valueError
deriving DecidableEq

/-- The rows of `prices` whose date falls in month `k`, in date order: the
group of `prices.groupby(["year", "month"])` for key `k`, after
`group.sort_values("Date")`.  (`groupby` preserves the original row order
inside a group; the subsequent stable sort by date orders it by date.) -/
def monthGroup (ps : List PricePoint) (k : YM) : List PricePoint :=
  List.insertionSort (fun p q => p.date ≤ q.date)
    (ps.filter (fun p => decide (p.date.ym = k)))

/-- The investment date selected for month `k` by the body of the `groupby`
loop in `_get_monthly_investment_dates`: the minimum of the dates on or after
`INVESTMENT_DAY` when there are any (`cand["Date"].min()`), otherwise the
month's maximum date (`group["Date"].max()`).  `none` only for a month with no
rows (never happens for a key of the groupby). -/
def selectForMonth (ps : List PricePoint) (k : YM) : Option Date :=
  let group := monthGroup ps k
  let cand := group.filter (fun p => decide (INVESTMENT_DAY ≤ p.date.day))
  if cand.isEmpty then (group.map PricePoint.date).max?
  else (cand.map PricePoint.date).min?

/-- The distinct (year, month) keys of the series in ascending order: the keys
of `prices.groupby(["year", "month"])` (pandas iterates groups in sorted key
order). -/
def monthKeys (ps : List PricePoint) : List YM :=
  List.insertionSort (fun a b => a ≤ b) ((ps.map (fun p => p.date.ym)).dedup)

/-- Model of `_get_monthly_investment_dates`: one selected date per groupby
key, then `sorted(invest_dates)`. -/
def get_monthly_investment_dates (ps : List PricePoint) : List Date :=
  List.insertionSort (fun a b => a ≤ b)
    ((monthKeys ps).filterMap (fun k => selectForMonth ps k))

/-- Model of `simulate_lump_sum`.  On an empty frame `df.loc[0, "adj_close"]`
raises `KeyError` (there is no row label 0); otherwise `units` is bought at the
first price and every row is emitted with constant `units` and
`invested_amount`.  The division is total: a non-positive first price is not
checked (numpy float division by zero yields an infinity, not an exception). -/
def simulate_lump_sum (prices : List PricePoint) (ticker : String) :
    Except PyError StrategyResult :=
  match prices with
  | [] => Except.error (PyError.keyError 0)
  | p0 :: _ =>
    let units := INITIAL_CAPITAL / p0.adj_close
    Except.ok
      { df_equity := prices.map (fun p =>
          { date := p.date, ticker := ticker, strategy := "Lump Sum",
            units := units, invested_amount := INITIAL_CAPITAL,
            portfolio_value := units * p.adj_close }),
        name := "Lump Sum", ticker := ticker }

/-- One iteration of the `df.iterrows()` loop state of `simulate_dca`:
`s = (total_units, total_invested)`; on a row whose date is in `invest_dates`
the contribution is bought at that row's price. -/
def dcaStep (invest_dates : List Date) (s : ℚ × ℚ) (p : PricePoint) : ℚ × ℚ :=
  if p.date ∈ invest_dates then
    (s.1 + MONTHLY_CONTRIBUTION / p.adj_close, s.2 + MONTHLY_CONTRIBUTION)
  else s

/-- The rows appended by the `df.iterrows()` loop of `simulate_dca`, starting
from accumulator state `s`: each row is emitted with the post-update state and
`portfolio_value = total_units * price`. -/
def dcaRecords (invest_dates : List Date) (ticker : String) :
    ℚ × ℚ → List PricePoint → List EquityRecord
  | _, [] => []
  | s, p :: rest =>
    let s' := dcaStep invest_dates s p
    { date := p.date, ticker := ticker, strategy := "DCA",
      units := s'.1, invested_amount := s'.2,
      portfolio_value := s'.1 * p.adj_close } :: dcaRecords invest_dates ticker s' rest

/-- Model of `simulate_dca`: compute the schedule, then scan the rows from
`(0, 0)`.  No operation in the loop can raise (list membership, float
arithmetic and list appends are total), so the result is always `ok` — in
particular an empty series yields an empty equity curve, not an error. -/
def simulate_dca (prices : List PricePoint) (ticker : String) :
    Except PyError StrategyResult :=
  let invest_dates := get_monthly_investment_dates prices
  Except.ok
    { df_equity := dcaRecords invest_dates ticker (0, 0) prices,
      name := "DCA", ticker := ticker }

/-- The `all_results` accumulation loop of `run_simulations`: for each ticker
in order, fetch its series (`get_price_series`, modelled by the external
`fetch`), run both simulators and append both equity curves.  A raised
exception propagates and aborts the remaining tickers. -/
def collectResults (fetch : String → List PricePoint) :
    List String → Except PyError (List (List EquityRecord))
  | [] => Except.ok []
  | t :: ts => do
    let lump ← simulate_lump_sum (fetch t) t
    let dca ← simulate_dca (fetch t) t
    let rest ← collectResults fetch ts
    Except.ok (lump.df_equity :: dca.df_equity :: rest)

/-- Model of `run_simulations`: the loop over tickers followed by
`pd.concat(all_results, ignore_index=True)` (which raises `ValueError` when
given no frames, i.e. when the ticker list is empty). -/
def run_simulations (fetch : String → List PricePoint) (tickers : List String) :
    Except PyError (List EquityRecord) := do
  let all_results ← collectResults fetch tickers
  if all_results.isEmpty then Except.error PyError.valueError
  else Except.ok all_results.flatten

/-! Helper lemmas about the schedule computation. -/

theorem monthGroup_perm (ps : List PricePoint) (k : YM) :
    List.Perm (monthGroup ps k) (ps.filter (fun p => decide (p.date.ym = k))) :=
  List.perm_insertionSort _ _

theorem mem_monthGroup {ps : List PricePoint} {k : YM} {p : PricePoint} :
    p ∈ monthGroup ps k ↔ p ∈ ps ∧ p.date.ym = k := by
  rw [(monthGroup_perm ps k).mem_iff, List.mem_filter]
  simp

theorem monthKeys_mem {ps : List PricePoint} {k : YM} :
    k ∈ monthKeys ps ↔ ∃ p ∈ ps, p.date.ym = k := by
  unfold monthKeys
  rw [(List.perm_insertionSort _ _).mem_iff, List.mem_dedup, List.mem_map]

theorem monthKeys_nodup (ps : List PricePoint) : (monthKeys ps).Nodup :=
  (List.perm_insertionSort _ _).nodup_iff.mpr (List.nodup_dedup _)

theorem monthKeys_length (ps : List PricePoint) :
    (monthKeys ps).length = ((ps.map (fun p => p.date.ym)).dedup).length :=
  (List.perm_insertionSort _ _).length_eq

theorem min?_spec {l : List Date} {a : Date} (h : l.min? = some a) :
    a ∈ l ∧ ∀ b ∈ l, a ≤ b := by
  refine ⟨List.min?_mem min_choice h, fun b hb => ?_⟩
  exact (List.le_min?_iff (fun _ _ _ => le_min_iff) h).mp le_rfl b hb

theorem max?_spec {l : List Date} {a : Date} (h : l.max? = some a) :
    a ∈ l ∧ ∀ b ∈ l, b ≤ a := by
  refine ⟨List.max?_mem max_choice h, fun b hb => ?_⟩
  exact (List.max?_le_iff (fun _ _ _ => max_le_iff) h).mp le_rfl b hb

theorem selectForMonth_isSome {ps : List PricePoint} {k : YM}
    (h : ∃ p ∈ ps, p.date.ym = k) : ∃ d, selectForMonth ps k = some d := by
  obtain ⟨p, hp, hk⟩ := h
  have hg : p ∈ monthGroup ps k := mem_monthGroup.mpr ⟨hp, hk⟩
  simp only [selectForMonth]
  by_cases hc :
      ((monthGroup ps k).filter (fun p => decide (INVESTMENT_DAY ≤ p.date.day))).isEmpty
  · rw [if_pos hc]
    cases hgl : monthGroup ps k with
    | nil => rw [hgl] at hg; cases hg
    | cons q qs => exact ⟨_, rfl⟩
  · rw [if_neg hc]
    cases hcl :
        (monthGroup ps k).filter (fun p => decide (INVESTMENT_DAY ≤ p.date.day)) with
    | nil => simp [hcl] at hc
    | cons q qs => exact ⟨_, rfl⟩

theorem selectForMonth_mem {ps : List PricePoint} {k : YM} {d : Date}
    (h : selectForMonth ps k = some d) : (∃ p ∈ ps, p.date = d) ∧ d.ym = k := by
  simp only [selectForMonth] at h
  split at h
  · obtain ⟨hm, -⟩ := max?_spec h
    obtain ⟨p, hp, hpd⟩ := List.mem_map.mp hm
    obtain ⟨hps, hym⟩ := mem_monthGroup.mp hp
    exact ⟨⟨p, hps, hpd⟩, hpd ▸ hym⟩
  · obtain ⟨hm, -⟩ := min?_spec h
    obtain ⟨p, hp, hpd⟩ := List.mem_map.mp hm
    have hp' : p ∈ monthGroup ps k := List.mem_of_mem_filter hp
    obtain ⟨hps, hym⟩ := mem_monthGroup.mp hp'
    exact ⟨⟨p, hps, hpd⟩, hpd ▸ hym⟩

theorem candPerm (ps : List PricePoint) (k : YM) :
    List.Perm
      ((monthGroup ps k).filter (fun p => decide (INVESTMENT_DAY ≤ p.date.day)))
      ((ps.filter (fun p => decide (p.date.ym = k))).filter
        (fun p => decide (INVESTMENT_DAY ≤ p.date.day))) :=
  (monthGroup_perm ps k).filter _

theorem selectForMonth_spec {ps : List PricePoint} {k : YM} {d : Date}
    (h : selectForMonth ps k = some d) :
    (((ps.filter (fun p => decide (p.date.ym = k))).map PricePoint.date).filter
          (fun e => decide (INVESTMENT_DAY ≤ e.day)) = [] →
        d ∈ (ps.filter (fun p => decide (p.date.ym = k))).map PricePoint.date ∧
        ∀ e ∈ (ps.filter (fun p => decide (p.date.ym = k))).map PricePoint.date, e ≤ d) ∧
    (((ps.filter (fun p => decide (p.date.ym = k))).map PricePoint.date).filter
          (fun e => decide (INVESTMENT_DAY ≤ e.day)) ≠ [] →
        d ∈ ((ps.filter (fun p => decide (p.date.ym = k))).map PricePoint.date).filter
          (fun e => decide (INVESTMENT_DAY ≤ e.day)) ∧
        ∀ e ∈ ((ps.filter (fun p => decide (p.date.ym = k))).map PricePoint.date).filter
          (fun e => decide (INVESTMENT_DAY ≤ e.day)), d ≤ e) := by
  have hfm :
      ((ps.filter (fun p => decide (p.date.ym = k))).map PricePoint.date).filter
          (fun e => decide (INVESTMENT_DAY ≤ e.day)) =
        ((ps.filter (fun p => decide (p.date.ym = k))).filter
          (fun p => decide (INVESTMENT_DAY ≤ p.date.day))).map PricePoint.date := by
    rw [List.filter_map]
    rfl
  have hcand :
      List.Perm
        (((monthGroup ps k).filter (fun p => decide (INVESTMENT_DAY ≤ p.date.day))).map
          PricePoint.date)
        (((ps.filter (fun p => decide (p.date.ym = k))).map PricePoint.date).filter
          (fun e => decide (INVESTMENT_DAY ≤ e.day))) := by
    rw [hfm]
    exact (candPerm ps k).map _
  have hgroup :
      List.Perm ((monthGroup ps k).map PricePoint.date)
        ((ps.filter (fun p => decide (p.date.ym = k))).map PricePoint.date) :=
    (monthGroup_perm ps k).map _
  simp only [selectForMonth] at h
  split at h
  · rename_i hempty
    have hcnil :
        ((ps.filter (fun p => decide (p.date.ym = k))).map PricePoint.date).filter
            (fun e => decide (INVESTMENT_DAY ≤ e.day)) = [] := by
      have := hcand.length_eq
      rw [List.isEmpty_iff] at hempty
      rw [hempty] at this
      simp only [List.map_nil, List.length_nil] at this
      exact List.length_eq_zero.mp this.symm
    obtain ⟨hm, hb⟩ := max?_spec h
    refine ⟨fun _ => ⟨hgroup.mem_iff.mp hm, fun e he => hb e (hgroup.mem_iff.mpr he)⟩,
      fun hne => absurd hcnil hne⟩
  · rename_i hempty
    have hcne :
        ((ps.filter (fun p => decide (p.date.ym = k))).map PricePoint.date).filter
            (fun e => decide (INVESTMENT_DAY ≤ e.day)) ≠ [] := by
      intro hnil
      have := hcand.length_eq
      rw [hnil] at this
      simp only [List.length_nil, List.length_map] at this
      rw [List.isEmpty_iff, ← List.length_eq_zero] at hempty
      exact hempty this
    obtain ⟨hm, hb⟩ := min?_spec h
    exact ⟨fun heq => absurd heq hcne,
      fun _ => ⟨hcand.mem_iff.mp hm, fun e he => hb e (hcand.mem_iff.mpr he)⟩⟩

/-! Lemmas about the assembled schedule. -/

theorem schedule_perm (ps : List PricePoint) :
    List.Perm (get_monthly_investment_dates ps)
      ((monthKeys ps).filterMap (fun k => selectForMonth ps k)) :=
  List.perm_insertionSort _ _

theorem mem_schedule {ps : List PricePoint} {d : Date} :
    d ∈ get_monthly_investment_dates ps ↔
      ∃ k ∈ monthKeys ps, selectForMonth ps k = some d := by
  rw [(schedule_perm ps).mem_iff, List.mem_filterMap]

theorem schedule_subset_dates {ps : List PricePoint} {d : Date}
    (h : d ∈ get_monthly_investment_dates ps) : ∃ p ∈ ps, p.date = d := by
  obtain ⟨k, -, hsel⟩ := mem_schedule.mp h
  exact (selectForMonth_mem hsel).1

theorem length_filterMap_of_isSome {α β : Type} {f : α → Option β} :
    ∀ {l : List α}, (∀ a ∈ l, ∃ b, f a = some b) → (l.filterMap f).length = l.length
  | [], _ => rfl
  | a :: l, h => by
    obtain ⟨b, hb⟩ := h a (List.mem_cons_self a l)
    rw [List.filterMap_cons, hb]
    simp only [List.length_cons]
    rw [length_filterMap_of_isSome (fun x hx => h x (List.mem_cons_of_mem a hx))]

theorem schedule_length (ps : List PricePoint) :
    (get_monthly_investment_dates ps).length =
      ((ps.map (fun p => p.date.ym)).dedup).length := by
  rw [(schedule_perm ps).length_eq,
    length_filterMap_of_isSome (fun k hk => selectForMonth_isSome (monthKeys_mem.mp hk)),
    monthKeys_length]

theorem schedule_map_ym_nodup (ps : List PricePoint) :
    ((get_monthly_investment_dates ps).map Date.ym).Nodup := by
  have hperm : List.Perm ((get_monthly_investment_dates ps).map Date.ym)
      (((monthKeys ps).filterMap (fun k => selectForMonth ps k)).map Date.ym) :=
    (schedule_perm ps).map _
  rw [hperm.nodup_iff]
  have : ∀ (ks : List YM), ks.Nodup →
      ((ks.filterMap (fun k => selectForMonth ps k)).map Date.ym).Nodup := by
    intro ks
    induction ks with
    | nil => intro _; simp
    | cons k ks ih =>
      intro hnd
      rw [List.nodup_cons] at hnd
      rw [List.filterMap_cons]
      cases hsel : selectForMonth ps k with
      | none => exact ih hnd.2
      | some d =>
        rw [List.map_cons, List.nodup_cons]
        refine ⟨?_, ih hnd.2⟩
        intro hmem
        obtain ⟨d', hd', hyd⟩ := List.mem_map.mp hmem
        obtain ⟨k', hk', hsel'⟩ := List.mem_filterMap.mp hd'
        have h1 : d.ym = k := (selectForMonth_mem hsel).2
        have h2 : d'.ym = k' := (selectForMonth_mem hsel').2
        exact hnd.1 (h1 ▸ hyd ▸ h2 ▸ hk')
  exact this (monthKeys ps) (monthKeys_nodup ps)

theorem schedule_nodup (ps : List PricePoint) : (get_monthly_investment_dates ps).Nodup :=
  (schedule_map_ym_nodup ps).of_map

theorem schedule_sorted (ps : List PricePoint) :
    List.Sorted (fun a b : Date => a ≤ b) (get_monthly_investment_dates ps) :=
  List.sorted_insertionSort _ _

/-! Lemmas about the DCA accumulation scan. -/

theorem dcaRecords_cons (sched : List Date) (t : String) (s : ℚ × ℚ) (q : PricePoint)
    (rest : List PricePoint) :
    dcaRecords sched t s (q :: rest) =
      { date := q.date, ticker := t, strategy := "DCA",
        units := (dcaStep sched s q).1, invested_amount := (dcaStep sched s q).2,
        portfolio_value := (dcaStep sched s q).1 * q.adj_close } ::
      dcaRecords sched t (dcaStep sched s q) rest := rfl

theorem dcaStep_snd_le (sched : List Date) (s : ℚ × ℚ) (q : PricePoint) :
    s.2 ≤ (dcaStep sched s q).2 := by
  unfold dcaStep
  split
  · exact le_add_of_nonneg_right (by norm_num [MONTHLY_CONTRIBUTION])
  · exact le_rfl

theorem dcaStep_fst_le (sched : List Date) (s : ℚ × ℚ) {q : PricePoint}
    (hq : 0 < q.adj_close) : s.1 ≤ (dcaStep sched s q).1 := by
  unfold dcaStep
  split
  · exact le_add_of_nonneg_right
      (div_nonneg (by norm_num [MONTHLY_CONTRIBUTION]) hq.le)
  · exact le_rfl

theorem dcaRecords_head?_invested (sched : List Date) (t : String) :
    ∀ (ps : List PricePoint) (s : ℚ × ℚ) (r : EquityRecord),
      (dcaRecords sched t s ps).head? = some r → s.2 ≤ r.invested_amount := by
  intro ps s r h
  cases ps with
  | nil => simp [dcaRecords] at h
  | cons q rest =>
    rw [dcaRecords_cons, List.head?_cons, Option.some.injEq] at h
    rw [← h]
    exact dcaStep_snd_le sched s q

theorem dcaRecords_head?_units (sched : List Date) (t : String) :
    ∀ (ps : List PricePoint) (s : ℚ × ℚ) (r : EquityRecord),
      (∀ p ∈ ps, 0 < p.adj_close) →
      (dcaRecords sched t s ps).head? = some r → s.1 ≤ r.units := by
  intro ps s r hpos h
  cases ps with
  | nil => simp [dcaRecords] at h
  | cons q rest =>
    rw [dcaRecords_cons, List.head?_cons, Option.some.injEq] at h
    rw [← h]
    exact dcaStep_fst_le sched s (hpos q (List.mem_cons_self q rest))

theorem dcaRecords_chain_invested (sched : List Date) (t : String) :
    ∀ (ps : List PricePoint) (s : ℚ × ℚ),
      List.Chain' (fun a b => a.invested_amount ≤ b.invested_amount)
        (dcaRecords sched t s ps) := by
  intro ps
  induction ps with
  | nil => intro s; simp [dcaRecords]
  | cons q rest ih =>
    intro s
    rw [dcaRecords_cons]
    refine List.chain'_cons'.mpr ⟨?_, ih (dcaStep sched s q)⟩
    intro r hr
    exact dcaRecords_head?_invested sched t rest (dcaStep sched s q) r hr

theorem dcaRecords_chain_units (sched : List Date) (t : String) :
    ∀ (ps : List PricePoint) (s : ℚ × ℚ), (∀ p ∈ ps, 0 < p.adj_close) →
      List.Chain' (fun a b => a.units ≤ b.units) (dcaRecords sched t s ps) := by
  intro ps
  induction ps with
  | nil => intro s _; simp [dcaRecords]
  | cons q rest ih =>
    intro s hpos
    rw [dcaRecords_cons]
    refine List.chain'_cons'.mpr
      ⟨?_, ih (dcaStep sched s q) (fun p hp => hpos p (List.mem_cons_of_mem q hp))⟩
    intro r hr
    exact dcaRecords_head?_units sched t rest (dcaStep sched s q) r
      (fun p hp => hpos p (List.mem_cons_of_mem q hp)) hr

theorem dcaRecords_getElem? (sched : List Date) (t : String) :
    ∀ (ps : List PricePoint) (s : ℚ × ℚ) (i : Nat) (p : PricePoint),
      ps[i]? = some p →
      ∃ r, (dcaRecords sched t s ps)[i]? = some r ∧
        r.invested_amount = s.2 + MONTHLY_CONTRIBUTION *
          (((ps.take (i+1)).countP (fun q => decide (q.date ∈ sched)) : Nat) : ℚ) ∧
        r.units = s.1 + (((ps.take (i+1)).filter
            (fun q => decide (q.date ∈ sched))).map
            (fun q => MONTHLY_CONTRIBUTION / q.adj_close)).sum ∧
        r.date = p.date ∧ r.ticker = t ∧ r.strategy = "DCA" ∧
        r.portfolio_value = r.units * p.adj_close := by
  intro ps
  induction ps with
  | nil => intro s i p hp; simp at hp
  | cons q rest ih =>
    intro s i p hp
    cases i with
    | zero =>
      rw [List.getElem?_cons_zero, Option.some.injEq] at hp
      subst hp
      rw [dcaRecords_cons]
      refine ⟨_, List.getElem?_cons_zero, ?_, ?_, rfl, rfl, rfl, rfl⟩
      · by_cases hq : q.date ∈ sched <;>
          simp [dcaStep, hq, List.take_succ_cons, List.countP_cons]
      · by_cases hq : q.date ∈ sched <;>
          simp [dcaStep, hq, List.take_succ_cons]
    | succ i =>
      rw [List.getElem?_cons_succ] at hp
      obtain ⟨r, hr, hinv, hunits, hdate, hticker, hstrat, hpv⟩ :=
        ih (dcaStep sched s q) i p hp
      rw [dcaRecords_cons]
      refine ⟨r, by rw [List.getElem?_cons_succ]; exact hr, ?_, ?_, hdate, hticker, hstrat, hpv⟩
      · rw [hinv, List.take_succ_cons, List.countP_cons]
        by_cases hq : q.date ∈ sched
        · simp [dcaStep, hq]
          ring
        · simp [dcaStep, hq]
      · rw [hunits, List.take_succ_cons, List.filter_cons]
        by_cases hq : q.date ∈ sched
        · simp [dcaStep, hq]
          ring
        · simp [dcaStep, hq]

theorem dcaRecords_length (sched : List Date) (t : String) :
    ∀ (ps : List PricePoint) (s : ℚ × ℚ), (dcaRecords sched t s ps).length = ps.length := by
  intro ps
  induction ps with
  | nil => intro s; rfl
  | cons q rest ih =>
    intro s
    rw [dcaRecords_cons, List.length_cons, List.length_cons, ih]

theorem countP_take_succ {ps : List PricePoint} {i : Nat} {p : PricePoint}
    (hp : ps[i]? = some p) (f : PricePoint → Bool) :
    (ps.take (i+1)).countP f = (ps.take i).countP f + if f p then 1 else 0 := by
  rw [List.take_succ, hp]
  simp only [Option.toList_some, List.countP_append, List.countP_cons, List.countP_nil,
    Nat.zero_add]

theorem filterSum_take_succ {ps : List PricePoint} {i : Nat} {p : PricePoint}
    (hp : ps[i]? = some p) (f : PricePoint → Bool) (g : PricePoint → ℚ) :
    (((ps.take (i+1)).filter f).map g).sum
      = (((ps.take i).filter f).map g).sum + if f p then g p else 0 := by
  rw [List.take_succ, hp]
  rw [Option.toList_some, List.filter_append, List.map_append, List.sum_append]
  by_cases hf : f p <;> simp [List.filter_cons, hf]

theorem countP_nodup_sublist_eq_length {l : List Date} {sched : List Date}
    (hnd : l.Nodup) (hsnd : sched.Nodup) (hsub : ∀ d ∈ sched, d ∈ l) :
    l.countP (fun d => decide (d ∈ sched)) = sched.length := by
  rw [List.countP_eq_length_filter]
  have hfn : (l.filter (fun d => decide (d ∈ sched))).Nodup := hnd.filter _
  have hmemiff : ∀ d, d ∈ l.filter (fun d => decide (d ∈ sched)) ↔ d ∈ sched := by
    intro d
    rw [List.mem_filter]
    simp only [decide_eq_true_eq]
    exact ⟨fun h => h.2, fun h => ⟨hsub d h, h⟩⟩
  exact ((List.perm_ext_iff_of_nodup hfn hsnd).mpr hmemiff).length_eq

theorem dates_nodup_of_chain {ps : List PricePoint}
    (h : List.Chain' (fun p q => p.date < q.date) ps) :
    (ps.map PricePoint.date).Nodup := by
  have h1 : List.Chain' (fun a b : Date => a < b) (ps.map PricePoint.date) :=
    (List.chain'_map PricePoint.date).mpr h
  exact (List.chain'_iff_pairwise.mp h1).imp ne_of_lt

theorem simulate_dca_ok {ps : List PricePoint} {t : String} {res : StrategyResult}
    (h : simulate_dca ps t = Except.ok res) :
    res.df_equity = dcaRecords (get_monthly_investment_dates ps) t (0, 0) ps := by
  simp only [simulate_dca, Except.ok.injEq] at h
  rw [← h]

theorem simulate_lump_sum_ok {ps : List PricePoint} {t : String} {res : StrategyResult}
    {p0 : PricePoint} (h0 : ps.head? = some p0)
    (h : simulate_lump_sum ps t = Except.ok res) :
    res.df_equity = ps.map (fun p =>
      { date := p.date, ticker := t, strategy := "Lump Sum",
        units := INITIAL_CAPITAL / p0.adj_close, invested_amount := INITIAL_CAPITAL,
        portfolio_value := (INITIAL_CAPITAL / p0.adj_close) * p.adj_close }) := by
  cases ps with
  | nil => simp at h0
  | cons q rest =>
    rw [List.head?_cons, Option.some.injEq] at h0
    subst h0
    simp only [simulate_lump_sum, Except.ok.injEq] at h
    rw [← h]

/-! Claim theorems. -/

/-- C1: for every price series, `_get_monthly_investment_dates` returns a
schedule sorted ascending with exactly one date per distinct (year, month)
pair present in the input (and only for those pairs); each month's selected
date is the minimum input date of that month with day-of-month at least
`INVESTMENT_DAY` when one exists, and otherwise the maximum input date of the
month; and an empty input yields an empty schedule without error. -/
theorem C1_schedule_selection (ps : List PricePoint) :
    List.Sorted (fun a b : Date => a ≤ b) (get_monthly_investment_dates ps) ∧
    ((get_monthly_investment_dates ps).map Date.ym).Nodup ∧
    (∀ k : YM, k ∈ ps.map (fun p => p.date.ym) ↔
      ∃ d ∈ get_monthly_investment_dates ps, d.ym = k) ∧
    (get_monthly_investment_dates ps).length =
      ((ps.map (fun p => p.date.ym)).dedup).length ∧
    (∀ d ∈ get_monthly_investment_dates ps,
      (((ps.filter (fun p => decide (p.date.ym = d.ym))).map PricePoint.date).filter
          (fun e => decide (INVESTMENT_DAY ≤ e.day)) ≠ [] →
        d ∈ ((ps.filter (fun p => decide (p.date.ym = d.ym))).map PricePoint.date).filter
            (fun e => decide (INVESTMENT_DAY ≤ e.day)) ∧
        ∀ e ∈ ((ps.filter (fun p => decide (p.date.ym = d.ym))).map PricePoint.date).filter
            (fun e => decide (INVESTMENT_DAY ≤ e.day)), d ≤ e) ∧
      (((ps.filter (fun p => decide (p.date.ym = d.ym))).map PricePoint.date).filter
          (fun e => decide (INVESTMENT_DAY ≤ e.day)) = [] →
        d ∈ (ps.filter (fun p => decide (p.date.ym = d.ym))).map PricePoint.date ∧
        ∀ e ∈ (ps.filter (fun p => decide (p.date.ym = d.ym))).map PricePoint.date, e ≤ d)) ∧
    (ps = [] → get_monthly_investment_dates ps = []) := by
  refine ⟨schedule_sorted ps, schedule_map_ym_nodup ps, ?_, schedule_length ps, ?_, ?_⟩
  · intro k
    constructor
    · intro hk
      obtain ⟨p, hp, hpk⟩ := List.mem_map.mp hk
      obtain ⟨d, hd⟩ := selectForMonth_isSome ⟨p, hp, hpk⟩
      exact ⟨d, mem_schedule.mpr ⟨k, monthKeys_mem.mpr ⟨p, hp, hpk⟩, hd⟩,
        (selectForMonth_mem hd).2⟩
    · rintro ⟨d, hd, rfl⟩
      obtain ⟨k', hk', hsel⟩ := mem_schedule.mp hd
      rw [(selectForMonth_mem hsel).2]
      obtain ⟨p, hp, hpk⟩ := monthKeys_mem.mp hk'
      exact List.mem_map.mpr ⟨p, hp, hpk⟩
  · intro d hd
    obtain ⟨k, hk, hsel⟩ := mem_schedule.mp hd
    have hym : d.ym = k := (selectForMonth_mem hsel).2
    subst hym
    have hspec := selectForMonth_spec hsel
    exact ⟨hspec.2, hspec.1⟩
  · intro h
    subst h
    rfl

/-- C1 witness: the month (2020, 1) occurs in a concrete two-row January
series, so the schedule carries exactly a date of that month. -/
theorem C1_schedule_selection_witness :
    ∃ d ∈ get_monthly_investment_dates
      [{ date := ⟨2020,1,3⟩, adj_close := 10 }, { date := ⟨2020,1,20⟩, adj_close := 12 }],
      d.ym = toLex (2020, 1) :=
  ((C1_schedule_selection
    [{ date := ⟨2020,1,3⟩, adj_close := 10 }, { date := ⟨2020,1,20⟩, adj_close := 12 }]).2.2.1
    (toLex (2020, 1))).mp (by decide)

/-- C2 counterexample: `simulate_dca` on an empty series does not fail at all —
it returns a normal result with an empty equity curve, contradicting
"fails with NoDataError rather than returning an empty (zero-activity)
result". -/
theorem C2_counterexample :
    simulate_dca [] "AAPL" =
      Except.ok { df_equity := [], name := "DCA", ticker := "AAPL" } := rfl

/-- C2 amended: `simulate_lump_sum` fails exactly when the series is empty —
but with the `KeyError` of the `df.loc[0, ...]` lookup, as no `NoDataError`
class exists — while `simulate_dca` never fails: on an empty series it returns
an empty zero-activity result. -/
theorem C2_empty_series (ps : List PricePoint) (t : String) :
    ((∃ e, simulate_lump_sum ps t = Except.error e) ↔ ps = []) ∧
    ∃ res, simulate_dca ps t = Except.ok res ∧ (ps = [] → res.df_equity = []) := by
  refine ⟨⟨?_, ?_⟩, ⟨_, rfl, fun h => by subst h; rfl⟩⟩
  · rintro ⟨e, he⟩
    cases ps with
    | nil => rfl
    | cons q rest => simp [simulate_lump_sum] at he
  · rintro rfl
    exact ⟨_, rfl⟩

/-- C2 witness: on the empty series the lump-sum simulation errors, and on a
one-row series the DCA simulation succeeds. -/
theorem C2_empty_series_witness :
    (∃ e, simulate_lump_sum [] "AAPL" = Except.error e) ∧
    ∃ res, simulate_dca [{ date := ⟨2020,1,5⟩, adj_close := 10 }] "AAPL" =
      Except.ok res := by
  refine ⟨(C2_empty_series [] "AAPL").1.mpr rfl, ?_⟩
  obtain ⟨res, h, -⟩ :=
    (C2_empty_series [{ date := ⟨2020,1,5⟩, adj_close := 10 }] "AAPL").2
  exact ⟨res, h⟩

/-- Series whose single (first) row has a negative price. -/
def psNegPrice : List PricePoint := [{ date := ⟨2020,1,5⟩, adj_close := -1 }]

/-- C3 counterexample: the first price is -1 ≤ 0, yet `simulate_lump_sum`
raises no error of any kind and silently produces a record with negative
units, contradicting "fails with InvalidPriceError if p0 <= 0" and "never
silently treated without signaling". -/
theorem C3_counterexample :
    ({ date := ⟨2020,1,5⟩, adj_close := -1 } : PricePoint).adj_close ≤ 0 ∧
    ∃ res, simulate_lump_sum psNegPrice "AAPL" = Except.ok res ∧
      ∀ r ∈ res.df_equity, r.units = -10000 := by
  refine ⟨by norm_num, _, rfl, ?_⟩
  intro r hr
  obtain ⟨p, -, rfl⟩ := List.mem_map.mp hr
  show INITIAL_CAPITAL / ((-1 : ℚ)) = -10000
  norm_num [INITIAL_CAPITAL]

/-- C3 amended: a non-positive price used as a divisor is never signalled — no
`InvalidPriceError` exists.  With a non-positive first price the lump-sum
simulation still succeeds, silently baking `INITIAL_CAPITAL / p0` into every
record's units, and the DCA simulation always succeeds. -/
theorem C3_no_invalid_price_check (ps : List PricePoint) (t : String) (p0 : PricePoint)
    (h0 : ps.head? = some p0) (hp0 : p0.adj_close ≤ 0) :
    (∃ res, simulate_lump_sum ps t = Except.ok res ∧
      ∀ r ∈ res.df_equity, r.units = INITIAL_CAPITAL / p0.adj_close) ∧
    ∃ res, simulate_dca ps t = Except.ok res := by
  cases ps with
  | nil => simp at h0
  | cons q rest =>
    rw [List.head?_cons, Option.some.injEq] at h0
    subst h0
    refine ⟨⟨_, rfl, ?_⟩, _, rfl⟩
    intro r hr
    obtain ⟨p, -, rfl⟩ := List.mem_map.mp hr
    rfl

/-- C3 witness: the amended theorem applied to the concrete negative-price
series. -/
theorem C3_no_invalid_price_check_witness :
    ∃ res, simulate_lump_sum psNegPrice "AAPL" = Except.ok res ∧
      ∀ r ∈ res.df_equity, r.units = INITIAL_CAPITAL / (-1 : ℚ) :=
  (C3_no_invalid_price_check psNegPrice "AAPL"
    { date := ⟨2020,1,5⟩, adj_close := -1 } rfl (by norm_num)).1

/-- C4: in both variants, record i carries the date of input row i and its
portfolio_value equals units_held times that row's price, exactly. -/
theorem C4_portfolio_value (ps : List PricePoint) (t : String) (i : Nat) (p : PricePoint)
    (hp : ps[i]? = some p) :
    (∀ res, simulate_lump_sum ps t = Except.ok res →
      ∃ r, res.df_equity[i]? = some r ∧ r.date = p.date ∧
        r.portfolio_value = r.units * p.adj_close) ∧
    (∀ res, simulate_dca ps t = Except.ok res →
      ∃ r, res.df_equity[i]? = some r ∧ r.date = p.date ∧
        r.portfolio_value = r.units * p.adj_close) := by
  constructor
  · intro res hres
    cases hh : ps.head? with
    | none =>
      cases ps with
      | nil => simp at hp
      | cons q rest => simp at hh
    | some p0 =>
      rw [simulate_lump_sum_ok hh hres, List.getElem?_map, hp]
      exact ⟨_, rfl, rfl, rfl⟩
  · intro res hres
    rw [simulate_dca_ok hres]
    obtain ⟨r, hr, -, -, hdate, -, -, hpv⟩ :=
      dcaRecords_getElem? (get_monthly_investment_dates ps) t ps (0, 0) i p hp
    exact ⟨r, hr, hdate, hpv⟩

/-- C4 witness: the invariant instantiated on a concrete one-row series for
both variants. -/
theorem C4_portfolio_value_witness :
    (∃ res r, simulate_lump_sum [{ date := ⟨2020,1,5⟩, adj_close := 10 }] "AAPL" =
        Except.ok res ∧ res.df_equity[0]? = some r ∧
        r.portfolio_value = r.units * 10) ∧
    ∃ res r, simulate_dca [{ date := ⟨2020,1,5⟩, adj_close := 10 }] "AAPL" =
        Except.ok res ∧ res.df_equity[0]? = some r ∧
        r.portfolio_value = r.units * 10 := by
  have h := C4_portfolio_value [{ date := ⟨2020,1,5⟩, adj_close := 10 }] "AAPL" 0
    { date := ⟨2020,1,5⟩, adj_close := 10 } rfl
  obtain ⟨r1, ha1, -, hc1⟩ := h.1 _ rfl
  obtain ⟨r2, ha2, -, hc2⟩ := h.2 _ rfl
  exact ⟨⟨_, r1, rfl, ha1, hc1⟩, _, r2, rfl, ha2, hc2⟩

/-- Two-month series whose second month trades at a negative price. -/
def psC5 : List PricePoint :=
  [{ date := ⟨2020,1,5⟩, adj_close := 1 }, { date := ⟨2020,2,5⟩, adj_close := -1 }]

/-- C5 counterexample: on `psC5` both dates are schedule dates and the emitted
units go 300 then 0 — units_held strictly decreases, so the monotonicity does
not hold for all inputs. -/
theorem C5_counterexample :
    ∃ res, simulate_dca psC5 "AAPL" = Except.ok res ∧
      ¬ List.Chain' (fun a b : EquityRecord => a.units ≤ b.units) res.df_equity := by
  refine ⟨_, rfl, ?_⟩
  intro hchain
  have hs : get_monthly_investment_dates psC5 = [⟨2020,1,5⟩, ⟨2020,2,5⟩] := by decide
  have hu : ((dcaRecords (get_monthly_investment_dates psC5) "AAPL" (0, 0) psC5).map
      (fun r => r.units)) = [300, 0] := by
    rw [hs]
    simp [psC5, dcaRecords, dcaStep, MONTHLY_CONTRIBUTION]
    norm_num
  have h2 : List.Chain' (fun a b : ℚ => a ≤ b) [300, 0] := by
    rw [← hu]
    exact (List.chain'_map _).mpr hchain
  rw [List.chain'_cons] at h2
  have h3 : ¬ ((300 : ℚ) ≤ 0) := by norm_num
  exact h3 h2.1

/-- C5 amended: cumulative_invested is non-decreasing for every input;
units_held is non-decreasing provided every price in the series is positive;
and both accumulator values are unchanged from one record to the next when the
next row's date is not a schedule member. -/
theorem C5_dca_monotonicity (ps : List PricePoint) (t : String) :
    ∀ res, simulate_dca ps t = Except.ok res →
      List.Chain' (fun a b : EquityRecord => a.invested_amount ≤ b.invested_amount)
        res.df_equity ∧
      ((∀ p ∈ ps, 0 < p.adj_close) →
        List.Chain' (fun a b : EquityRecord => a.units ≤ b.units) res.df_equity) ∧
      (∀ i p r r', ps[i+1]? = some p →
        p.date ∉ get_monthly_investment_dates ps →
        res.df_equity[i]? = some r → res.df_equity[i+1]? = some r' →
        r'.units = r.units ∧ r'.invested_amount = r.invested_amount) := by
  intro res hres
  rw [simulate_dca_ok hres]
  refine ⟨dcaRecords_chain_invested _ t ps (0, 0),
    fun hpos => dcaRecords_chain_units _ t ps (0, 0) hpos, ?_⟩
  intro i p r r' hp hnot hr hr'
  have hlen : i + 1 < ps.length := (List.getElem?_eq_some.mp hp).1
  have hpi : ps[i]? = some ps[i] := List.getElem?_eq_getElem (Nat.lt_of_succ_lt hlen)
  obtain ⟨r0, hr0, hinv0, hun0, -, -, -, -⟩ :=
    dcaRecords_getElem? (get_monthly_investment_dates ps) t ps (0, 0) i ps[i] hpi
  obtain ⟨r1, hr1, hinv1, hun1, -, -, -, -⟩ :=
    dcaRecords_getElem? (get_monthly_investment_dates ps) t ps (0, 0) (i + 1) p hp
  have e0 : r0 = r := by
    have := hr0.symm.trans hr
    injection this
  have e1 : r1 = r' := by
    have := hr1.symm.trans hr'
    injection this
  subst e0
  subst e1
  have hc := countP_take_succ hp
    (fun q => decide (q.date ∈ get_monthly_investment_dates ps))
  have hf := filterSum_take_succ hp
    (fun q => decide (q.date ∈ get_monthly_investment_dates ps))
    (fun q => MONTHLY_CONTRIBUTION / q.adj_close)
  have hd : decide (p.date ∈ get_monthly_investment_dates ps) = false :=
    decide_eq_false hnot
  simp only [hd] at hc hf
  simp at hc hf
  constructor
  · rw [hun1, hun0, hf]
  · rw [hinv1, hinv0, hc]

/-- C5 witness: on a concrete positive-price series both monotonicity chains
hold. -/
theorem C5_dca_monotonicity_witness :
    ∃ res, simulate_dca
        [{ date := ⟨2020,1,5⟩, adj_close := 10 }, { date := ⟨2020,1,6⟩, adj_close := 11 }]
        "AAPL" = Except.ok res ∧
      List.Chain' (fun a b : EquityRecord => a.invested_amount ≤ b.invested_amount)
        res.df_equity ∧
      List.Chain' (fun a b : EquityRecord => a.units ≤ b.units) res.df_equity := by
  obtain ⟨h1, h2, -⟩ := C5_dca_monotonicity
    [{ date := ⟨2020,1,5⟩, adj_close := 10 }, { date := ⟨2020,1,6⟩, adj_close := 11 }]
    "AAPL" _ rfl
  refine ⟨_, rfl, h1, h2 ?_⟩
  intro p hp
  rcases List.mem_cons.mp hp with rfl | hp'
  · norm_num
  · rcases List.mem_cons.mp hp' with rfl | hp''
    · norm_num
    · simp at hp''

/-- C6: for every DCA run on a non-empty price series with strictly increasing
dates, the final record's cumulative_invested equals MONTHLY_CONTRIBUTION
times the number of distinct (year, month) pairs with data. -/
theorem C6_invested_total (ps : List PricePoint) (t : String)
    (hsorted : List.Chain' (fun p q => p.date < q.date) ps) (hne : ps ≠ []) :
    ∀ res, simulate_dca ps t = Except.ok res →
      ∃ r, res.df_equity.getLast? = some r ∧
        r.invested_amount = MONTHLY_CONTRIBUTION *
          ((((ps.map (fun p => p.date.ym)).dedup).length : Nat) : ℚ) := by
  intro res hres
  rw [simulate_dca_ok hres]
  have hlen : 0 < ps.length := List.length_pos.mpr hne
  have hidx : ps.length - 1 < ps.length := Nat.sub_lt hlen Nat.one_pos
  have hp : ps[ps.length - 1]? = some ps[ps.length - 1] := List.getElem?_eq_getElem hidx
  obtain ⟨r, hr, hinv, -, -, -, -, -⟩ :=
    dcaRecords_getElem? (get_monthly_investment_dates ps) t ps (0, 0) (ps.length - 1) _ hp
  have hsucc : ps.length - 1 + 1 = ps.length := Nat.succ_pred_eq_of_pos hlen
  rw [hsucc, List.take_length] at hinv
  have hnd : (ps.map PricePoint.date).Nodup := dates_nodup_of_chain hsorted
  have hsnd : (get_monthly_investment_dates ps).Nodup := schedule_nodup ps
  have hsub : ∀ d ∈ get_monthly_investment_dates ps, d ∈ ps.map PricePoint.date := by
    intro d hd
    obtain ⟨p, hp', rfl⟩ := schedule_subset_dates hd
    exact List.mem_map_of_mem _ hp'
  have hcount : ps.countP (fun q => decide (q.date ∈ get_monthly_investment_dates ps))
      = (get_monthly_investment_dates ps).length := by
    have h1 : ps.countP (fun q => decide (q.date ∈ get_monthly_investment_dates ps))
        = (ps.map PricePoint.date).countP
            (fun d => decide (d ∈ get_monthly_investment_dates ps)) := by
      rw [List.countP_map]
      rfl
    rw [h1]
    exact countP_nodup_sublist_eq_length hnd hsnd hsub
  refine ⟨r, ?_, ?_⟩
  · rw [List.getLast?_eq_getElem?, dcaRecords_length]
    exact hr
  · rw [hinv, hcount, schedule_length ps]
    norm_num

/-- C6 witness: two months at price 10, final invested is 600 = 300 × 2. -/
theorem C6_invested_total_witness :
    ∃ res, simulate_dca
        [{ date := ⟨2020,1,5⟩, adj_close := 10 }, { date := ⟨2020,2,5⟩, adj_close := 10 }]
        "AAPL" = Except.ok res ∧
      ∃ r, res.df_equity.getLast? = some r ∧ r.invested_amount = 600 := by
  obtain ⟨r, h1, h2⟩ := C6_invested_total
    [{ date := ⟨2020,1,5⟩, adj_close := 10 }, { date := ⟨2020,2,5⟩, adj_close := 10 }]
    "AAPL" (List.chain'_pair.mpr (by decide)) (by decide) _ rfl
  refine ⟨_, rfl, r, h1, ?_⟩
  rw [h2]
  rw [show ((([{ date := ⟨2020,1,5⟩, adj_close := 10 },
      { date := ⟨2020,2,5⟩, adj_close := 10 }] : List PricePoint).map
      (fun p => p.date.ym)).dedup).length = 2 from by decide]
  norm_num [MONTHLY_CONTRIBUTION]

/-- C7: on any non-empty series the lump-sum simulation succeeds, emits one
record per input row (same dates, positionally), and every record carries the
constant units INITIAL_CAPITAL / (price of the first row) and the constant
invested amount INITIAL_CAPITAL. -/
theorem C7_lump_sum_constant (ps : List PricePoint) (t : String) (p0 : PricePoint)
    (h0 : ps.head? = some p0) :
    ∃ res, simulate_lump_sum ps t = Except.ok res ∧
      res.df_equity.length = ps.length ∧
      (∀ (i : Nat) (p : PricePoint), ps[i]? = some p →
        ∃ r, res.df_equity[i]? = some r ∧ r.date = p.date) ∧
      ∀ r ∈ res.df_equity, r.units = INITIAL_CAPITAL / p0.adj_close ∧
        r.invested_amount = INITIAL_CAPITAL := by
  obtain ⟨res, hres⟩ : ∃ res, simulate_lump_sum ps t = Except.ok res := by
    cases ps with
    | nil => simp at h0
    | cons q rest => exact ⟨_, rfl⟩
  have hcurve := simulate_lump_sum_ok h0 hres
  refine ⟨res, hres, ?_, ?_, ?_⟩
  · rw [hcurve, List.length_map]
  · intro i p hp
    rw [hcurve, List.getElem?_map, hp]
    exact ⟨_, rfl, rfl⟩
  · intro r hr
    rw [hcurve] at hr
    obtain ⟨p, -, rfl⟩ := List.mem_map.mp hr
    exact ⟨rfl, rfl⟩

/-- C7 witness: concrete two-row series at first price 10; every record holds
1000 units and invested 10000. -/
theorem C7_lump_sum_constant_witness :
    ∃ res, simulate_lump_sum
        [{ date := ⟨2020,1,5⟩, adj_close := 10 }, { date := ⟨2020,1,6⟩, adj_close := 20 }]
        "AAPL" = Except.ok res ∧
      res.df_equity.length = 2 ∧
      ∀ r ∈ res.df_equity, r.units = 1000 ∧ r.invested_amount = 10000 := by
  obtain ⟨res, hres, hlen, -, hconst⟩ := C7_lump_sum_constant
    [{ date := ⟨2020,1,5⟩, adj_close := 10 }, { date := ⟨2020,1,6⟩, adj_close := 20 }]
    "AAPL" { date := ⟨2020,1,5⟩, adj_close := 10 } rfl
  refine ⟨res, hres, hlen, ?_⟩
  intro r hr
  obtain ⟨hu, hi⟩ := hconst r hr
  refine ⟨?_, ?_⟩
  · rw [hu]
    norm_num [INITIAL_CAPITAL]
  · rw [hi]
    rfl

/-! Aggregator plumbing. -/

theorem collectResults_cons (fetch : String → List PricePoint) (t : String)
    (ts : List String) :
    collectResults fetch (t :: ts) =
      (simulate_lump_sum (fetch t) t).bind (fun lump =>
        (simulate_dca (fetch t) t).bind (fun dca =>
          (collectResults fetch ts).bind (fun rest =>
            Except.ok (lump.df_equity :: dca.df_equity :: rest)))) := rfl

theorem run_simulations_def (fetch : String → List PricePoint) (tickers : List String) :
    run_simulations fetch tickers =
      (collectResults fetch tickers).bind (fun all_results =>
        if all_results.isEmpty then Except.error PyError.valueError
        else Except.ok all_results.flatten) := rfl

theorem collectResults_ok_iff (fetch : String → List PricePoint) :
    ∀ ts : List String,
      (∃ ls, collectResults fetch ts = Except.ok ls) ↔ ∀ t ∈ ts, fetch t ≠ [] := by
  intro ts
  induction ts with
  | nil =>
    constructor
    · intro _ t ht
      simp at ht
    · intro _
      exact ⟨[], rfl⟩
  | cons t ts ih =>
    rw [collectResults_cons]
    cases hft : fetch t with
    | nil =>
      constructor
      · rintro ⟨ls, hls⟩
        simp [simulate_lump_sum, Except.bind] at hls
      · intro hall
        exact absurd hft (hall t (List.mem_cons_self t ts))
    | cons q qs =>
      constructor
      · rintro ⟨ls, hls⟩
        intro u hu
        rcases List.mem_cons.mp hu with rfl | hu'
        · rw [hft]
          simp
        · refine (ih.mp ?_) u hu'
          cases hcr : collectResults fetch ts with
          | error e =>
            rw [hcr] at hls
            simp [simulate_lump_sum, simulate_dca, Except.bind] at hls
          | ok ls' => exact ⟨ls', rfl⟩
      · intro hall
        obtain ⟨ls', hcr⟩ := ih.mpr (fun u hu => hall u (List.mem_cons_of_mem t hu))
        rw [hcr]
        exact ⟨_, rfl⟩

/-- Fetch map with an empty series for "AAPL" and a valid series otherwise. -/
def fetchC8 : String → List PricePoint := fun t =>
  if t = "AAPL" then [] else [{ date := ⟨2020,1,5⟩, adj_close := 10 }]

/-- C8 counterexample: with AAPL's series empty and MSFT's series valid, the
whole aggregation returns one bare `KeyError` carrying no instrument identity,
and MSFT's results are never produced — the failure is not isolated. -/
theorem C8_counterexample :
    run_simulations fetchC8 ["AAPL", "MSFT"] = Except.error (PyError.keyError 0) ∧
    fetchC8 "MSFT" ≠ [] := by
  constructor
  · rfl
  · simp [fetchC8]

/-- C8 amended: when any instrument's simulation raises, the aggregation loop
propagates that error as is: the run aborts, the error carries no instrument
identity, and no instrument's results are returned. -/
theorem C8_failure_aborts (fetch : String → List PricePoint) (t : String)
    (ts : List String) (e : PyError)
    (h : simulate_lump_sum (fetch t) t = Except.error e) :
    run_simulations fetch (t :: ts) = Except.error e := by
  rw [run_simulations_def, collectResults_cons, h]
  rfl

/-- C8 witness: the amended theorem applied to the concrete fetch map. -/
theorem C8_failure_aborts_witness :
    run_simulations fetchC8 ["AAPL", "MSFT"] = Except.error (PyError.keyError 0) :=
  C8_failure_aborts fetchC8 "AAPL" ["MSFT"] (PyError.keyError 0) rfl

/-- Fetch map returning a series with strictly decreasing dates. -/
def fetchC9 : String → List PricePoint := fun _ =>
  [{ date := ⟨2020,1,10⟩, adj_close := 5 }, { date := ⟨2020,1,3⟩, adj_close := 6 }]

/-- C9 counterexample: the fetched series is not strictly increasing by date,
yet the run raises no error and emits records for it — nothing detects the
ordering violation. -/
theorem C9_counterexample :
    ¬ List.Chain' (fun p q : PricePoint => p.date < q.date) (fetchC9 "AAPL") ∧
    ∃ rs, run_simulations fetchC9 ["AAPL"] = Except.ok rs ∧ rs.length = 4 := by
  constructor
  · intro hc
    have := List.chain'_pair.mp hc
    exact absurd this (by decide)
  · exact ⟨_, rfl, rfl⟩

/-- C9 amended: there is no ordering check anywhere: the run succeeds exactly
when the ticker list is non-empty and every fetched series is non-empty,
independently of the order of the dates. -/
theorem C9_no_ordering_check (fetch : String → List PricePoint) (ts : List String) :
    (∃ rs, run_simulations fetch ts = Except.ok rs) ↔
      (ts ≠ [] ∧ ∀ t ∈ ts, fetch t ≠ []) := by
  rw [run_simulations_def]
  constructor
  · rintro ⟨rs, hrs⟩
    cases ts with
    | nil => simp [collectResults, Except.bind] at hrs
    | cons t ts' =>
      cases hcr : collectResults fetch (t :: ts') with
      | error e =>
        rw [hcr] at hrs
        simp [Except.bind] at hrs
      | ok ls =>
        exact ⟨by simp, (collectResults_ok_iff fetch (t :: ts')).mp ⟨ls, hcr⟩⟩
  · rintro ⟨hne, hall⟩
    cases ts with
    | nil => exact absurd rfl hne
    | cons t ts' =>
      obtain ⟨ls, hcr⟩ := (collectResults_ok_iff fetch (t :: ts')).mpr hall
      have hshape : ∃ a b ls', ls = a :: b :: ls' := by
        rw [collectResults_cons] at hcr
        cases hft : fetch t with
        | nil =>
          rw [hft] at hcr
          simp [simulate_lump_sum, Except.bind] at hcr
        | cons q qs =>
          rw [hft] at hcr
          cases hcr' : collectResults fetch ts' with
          | error e =>
            rw [hcr'] at hcr
            simp [simulate_lump_sum, simulate_dca, Except.bind] at hcr
          | ok ls'' =>
            rw [hcr'] at hcr
            simp only [simulate_lump_sum, simulate_dca, Except.bind, Except.ok.injEq] at hcr
            exact ⟨_, _, _, hcr.symm⟩
      obtain ⟨a, b, ls', rfl⟩ := hshape
      rw [hcr]
      exact ⟨_, rfl⟩

/-- C9 witness: the amended characterization applied to the decreasing-dates
fetch map. -/
theorem C9_no_ordering_check_witness :
    ∃ rs, run_simulations fetchC9 ["AAPL"] = Except.ok rs :=
  (C9_no_ordering_check fetchC9 ["AAPL"]).mpr
    ⟨by simp, by intro t ht; simp [fetchC9]⟩

/-- C10: the contribution is invested once per ROW whose date is a schedule
member: at every index, cumulative_invested equals MONTHLY_CONTRIBUTION times
the number of rows so far whose date lies in the schedule (duplicate-date rows
each counted), and units_held is the sum of one buy `MONTHLY_CONTRIBUTION /
price` per such row — so a month whose schedule date appears on several rows
receives several contributions, and once-per-month holds only for
duplicate-free dates. -/
theorem C10_per_row_investment (ps : List PricePoint) (t : String) (i : Nat)
    (p : PricePoint) (hp : ps[i]? = some p) :
    ∀ res, simulate_dca ps t = Except.ok res →
      ∃ r, res.df_equity[i]? = some r ∧
        r.invested_amount = MONTHLY_CONTRIBUTION *
          (((ps.take (i+1)).countP
            (fun q => decide (q.date ∈ get_monthly_investment_dates ps)) : Nat) : ℚ) ∧
        r.units = (((ps.take (i+1)).filter
            (fun q => decide (q.date ∈ get_monthly_investment_dates ps))).map
            (fun q => MONTHLY_CONTRIBUTION / q.adj_close)).sum := by
  intro res hres
  rw [simulate_dca_ok hres]
  obtain ⟨r, hr, hinv, hun, -, -, -, -⟩ :=
    dcaRecords_getElem? (get_monthly_investment_dates ps) t ps (0, 0) i p hp
  refine ⟨r, hr, ?_, ?_⟩
  · rw [hinv]
    norm_num
  · rw [hun]
    norm_num

/-- Series with the same schedule date on two rows. -/
def psDup : List PricePoint :=
  [{ date := ⟨2020,1,5⟩, adj_close := 10 }, { date := ⟨2020,1,5⟩, adj_close := 10 }]

/-- C10 witness: on the duplicated-date series the single January schedule
date matches both rows, so after the second row the cumulative invested is
600 — two contributions in one calendar month. -/
theorem C10_per_row_investment_witness :
    ∃ res, simulate_dca psDup "AAPL" = Except.ok res ∧
      ∃ r, res.df_equity[1]? = some r ∧ r.invested_amount = 600 := by
  obtain ⟨r, h1, h2, -⟩ := C10_per_row_investment psDup "AAPL" 1
    { date := ⟨2020,1,5⟩, adj_close := 10 } rfl _ rfl
  refine ⟨_, rfl, r, h1, ?_⟩
  rw [h2]
  rw [show (psDup.take 2).countP
      (fun q => decide (q.date ∈ get_monthly_investment_dates psDup)) = 2 from by decide]
  norm_num [MONTHLY_CONTRIBUTION]
